import Mathlib

/-!
Verification of the rational-number (Fraction) exercise in
exercises/operators/operators.cpp.

The C++ class Fraction stores two unsigned int fields m_num and m_denom.
We embed it shallowly: fields are Nat, and every arithmetic step of the
source that can wrap (unsigned multiplication) is taken modulo 2 ^ 32.
The private member normalize divides both fields by std.gcd of the
fields; C++ division by zero (reachable only when both fields are zero)
is undefined behaviour, so next to the total model we keep a checked
variant returning Option that makes the division-by-zero branch
explicit.
-/

/-- Modulus of unsigned int arithmetic: products in the source wrap modulo 2 ^ 32. -/
def uintSize : Nat := 2 ^ 32

/-- The Fraction class of operators.cpp: two unsigned int fields. -/
structure Fraction where
  m_num : Nat
  m_denom : Nat
deriving DecidableEq

/-- Constructor Fraction(unsigned num, unsigned denom) (line 7 of the source):
stores both fields exactly as given; there is no reduction step and no check
of the denominator. -/
def Fraction.mk2 (num denom : Nat) : Fraction := ⟨num, denom⟩

/-- Constructor Fraction(unsigned num) (line 8 of the source): denominator 1. -/
def Fraction.mk1 (num : Nat) : Fraction := ⟨num, 1⟩

/-- Private member Fraction.normalize (lines 44-48): divides both fields by
the gcd of the fields. When both fields are zero the gcd is zero and the
C++ divisions are undefined behaviour; this total model then uses the Lean
convention n / 0 = 0, and normalizeChecked below flags that branch. -/
def Fraction.normalize (f : Fraction) : Fraction :=
  ⟨f.m_num / Nat.gcd f.m_num f.m_denom, f.m_denom / Nat.gcd f.m_num f.m_denom⟩

/-- Fraction.normalize with the division-by-zero branch made explicit:
returns none exactly when the divisor std.gcd(m_num, m_denom) is zero. -/
def Fraction.normalizeChecked (f : Fraction) : Option Fraction :=
  if Nat.gcd f.m_num f.m_denom = 0 then none
  else some ⟨f.m_num / Nat.gcd f.m_num f.m_denom, f.m_denom / Nat.gcd f.m_num f.m_denom⟩

/-- Member operator *= (unsigned int coeff) (lines 30-34): multiplies the
numerator by coeff (unsigned arithmetic, wrapping), then normalizes. -/
def Fraction.mulAssignScalar (f : Fraction) (coeff : Nat) : Fraction :=
  Fraction.normalize ⟨f.m_num * coeff % uintSize, f.m_denom⟩

/-- Member operator * (unsigned int coeff) (lines 10-15): copies the fields
into rr, applies *= coeff, normalizes again, returns rr. -/
def Fraction.mulScalar (f : Fraction) (coeff : Nat) : Fraction :=
  ((⟨f.m_num, f.m_denom⟩ : Fraction).mulAssignScalar coeff).normalize

/-- Free operator * (unsigned int coeff, Fraction r) (lines 54-59): copies
the fields of r into rr, applies *= coeff, normalizes again, returns rr. -/
def scalarMulFrac (coeff : Nat) (r : Fraction) : Fraction :=
  ((⟨r.m_num, r.m_denom⟩ : Fraction).mulAssignScalar coeff).normalize

/-- Member operator *= (const Fraction) (lines 36-41): multiplies numerators
and denominators (unsigned, wrapping), then normalizes. -/
def Fraction.mulAssignFrac (f r : Fraction) : Fraction :=
  Fraction.normalize ⟨f.m_num * r.m_num % uintSize, f.m_denom * r.m_denom % uintSize⟩

/-- Free operator * (const Fraction l, const Fraction r) (lines 61-65):
builds the componentwise product (unsigned, wrapping) and normalizes it. -/
def mulFrac (l r : Fraction) : Fraction :=
  Fraction.normalize ⟨l.m_num * r.m_num % uintSize, l.m_denom * r.m_denom % uintSize⟩

/-- Stream insertion operator << (lines 67-70): appends the stored numerator,
a slash, and the stored denominator to the output stream (modelled as the
string accumulated in the stream so far). -/
def ostreamShift (os : String) (r : Fraction) : String :=
  ((os ++ Nat.repr r.m_num) ++ "/") ++ Nat.repr r.m_denom

/-- Textual rendering of a fraction: what operator << inserts into an empty stream. -/
def render (r : Fraction) : String := ostreamShift "" r

/-- Comparison operator == (lines 72-78): normalizes copies of both operands
and compares the two normalized field pairs componentwise. -/
def eqFrac (l r : Fraction) : Bool :=
  ((l.normalize.m_num == r.normalize.m_num) && (l.normalize.m_denom == r.normalize.m_denom))

/-- Comparison operator != (lines 80-82): negation of ==. -/
def neFrac (l r : Fraction) : Bool := !(eqFrac l r)

/-- Comparison operator < (lines 84-90): normalizes copies of both operands
and compares the cross products with unsigned (wrapping) multiplication. -/
def ltFrac (l r : Fraction) : Bool :=
  decide (l.normalize.m_num * r.normalize.m_denom % uintSize
    < r.normalize.m_num * l.normalize.m_denom % uintSize)

/-- Comparison operator <= (lines 92-94): l < r or l == r. -/
def leFrac (l r : Fraction) : Bool := ltFrac l r || eqFrac l r

/-- Comparison operator > (lines 96-102): normalizes copies of both operands
and compares the cross products the other way (unsigned, wrapping). -/
def gtFrac (l r : Fraction) : Bool :=
  decide (r.normalize.m_num * l.normalize.m_denom % uintSize
    < l.normalize.m_num * r.normalize.m_denom % uintSize)

/-- Comparison operator >= (lines 104-106): l > r or l == r. -/
def geFrac (l r : Fraction) : Bool := gtFrac l r || eqFrac l r

/-- Operator == with the division-by-zero branch of normalize made explicit. -/
def eqFracChecked (l r : Fraction) : Option Bool := do
  let ll ← l.normalizeChecked
  let rr ← r.normalizeChecked
  pure ((ll.m_num == rr.m_num) && (ll.m_denom == rr.m_denom))

/-- Member operator * (unsigned) with the division-by-zero branch of
normalize made explicit (the operator calls normalize twice). -/
def mulScalarChecked (f : Fraction) (coeff : Nat) : Option Fraction := do
  let rr ← Fraction.normalizeChecked ⟨f.m_num * coeff % uintSize, f.m_denom⟩
  rr.normalizeChecked

/-- Reduced-storage invariant stated by the spec: the stored pair has gcd 1,
and the zero value is stored as 0/1. -/
def reducedInv (f : Fraction) : Prop :=
  Nat.gcd f.m_num f.m_denom = 1 ∧ (f.m_num = 0 → f.m_denom = 1)

/-- Modelled from the spec: the reduced pair of a value, namely both fields
divided by their gcd. Used to compare the code against the wording of the
spec in the equality and multiplication claims. -/
def specReducedPair (f : Fraction) : Nat × Nat :=
  (f.m_num / Nat.gcd f.m_num f.m_denom, f.m_denom / Nat.gcd f.m_num f.m_denom)

/-- Modelled from the spec: make(numerator, denominator) fails with
DomainError (zero denominator) when the denominator is zero and otherwise
stores the reduced form immediately. The code has no such function; this is
the spec-side reference point for the zero-denominator claim. -/
def specMake (num denom : Nat) : Except String Fraction :=
  if denom = 0 then Except.error "zero denominator"
  else Except.ok (Fraction.normalize ⟨num, denom⟩)

/-- Exact (unwrapped) cross product of the normalized forms, left numerator
against right denominator; the operators < and > compare these modulo 2 ^ 32. -/
def normCross (l r : Fraction) : Nat :=
  l.normalize.m_num * r.normalize.m_denom

/- ## Helper lemmas -/

theorem normalize_m_num (f : Fraction) :
    f.normalize.m_num = f.m_num / Nat.gcd f.m_num f.m_denom := rfl

theorem normalize_m_denom (f : Fraction) :
    f.normalize.m_denom = f.m_denom / Nat.gcd f.m_num f.m_denom := rfl

theorem normalize_coprime (f : Fraction) (h : ¬(f.m_num = 0 ∧ f.m_denom = 0)) :
    Nat.Coprime f.normalize.m_num f.normalize.m_denom := by
  have hg : Nat.gcd f.m_num f.m_denom ≠ 0 := by
    simpa [Nat.gcd_eq_zero_iff] using h
  exact Nat.coprime_div_gcd_div_gcd (Nat.pos_of_ne_zero hg)

theorem normalize_denom_ne_zero (f : Fraction) (h : f.m_denom ≠ 0) :
    f.normalize.m_denom ≠ 0 := by
  have hg : Nat.gcd f.m_num f.m_denom ≠ 0 := Nat.gcd_ne_zero_right h
  have hdvd : Nat.gcd f.m_num f.m_denom ∣ f.m_denom := Nat.gcd_dvd_right _ _
  have hpos : 0 < f.m_denom / Nat.gcd f.m_num f.m_denom :=
    Nat.div_pos (Nat.le_of_dvd (Nat.pos_of_ne_zero h) hdvd) (Nat.pos_of_ne_zero hg)
  simpa [normalize_m_denom] using Nat.pos_iff_ne_zero.mp hpos

theorem normalize_reducedInv (f : Fraction) (h : ¬(f.m_num = 0 ∧ f.m_denom = 0)) :
    reducedInv f.normalize := by
  refine ⟨normalize_coprime f h, ?_⟩
  intro hnum
  have hg : Nat.gcd f.m_num f.m_denom ≠ 0 := by
    simpa [Nat.gcd_eq_zero_iff] using h
  by_cases hn : f.m_num = 0
  · have hd : f.m_denom ≠ 0 := fun hd => h ⟨hn, hd⟩
    simp [normalize_m_denom, hn, Nat.div_self (Nat.pos_of_ne_zero hd)]
  · exfalso
    have hdvd : Nat.gcd f.m_num f.m_denom ∣ f.m_num := Nat.gcd_dvd_left _ _
    have hpos : 0 < f.m_num / Nat.gcd f.m_num f.m_denom :=
      Nat.div_pos (Nat.le_of_dvd (Nat.pos_of_ne_zero hn) hdvd) (Nat.pos_of_ne_zero hg)
    rw [normalize_m_num] at hnum
    omega

theorem normalize_twice (f : Fraction) (h : ¬(f.m_num = 0 ∧ f.m_denom = 0)) :
    f.normalize.normalize = f.normalize := by
  have h1 : Nat.gcd f.normalize.m_num f.normalize.m_denom = 1 :=
    normalize_coprime f h
  cases hf : f.normalize with
  | mk n d =>
    rw [hf] at h1
    simp only [Fraction.normalize] at h1 ⊢
    simp [h1]

/-- For coprime pairs with nonzero denominators, equal cross products force
equal pairs. -/
theorem coprime_cross_eq {n1 d1 n2 d2 : Nat}
    (h1 : Nat.Coprime n1 d1) (h2 : Nat.Coprime n2 d2)
    (hd1 : d1 ≠ 0) (h : n1 * d2 = n2 * d1) : n1 = n2 ∧ d1 = d2 := by
  have hdvd1 : d1 ∣ d2 := by
    have : d1 ∣ n1 * d2 := ⟨n2, h.trans (Nat.mul_comm _ _)⟩
    exact (Nat.Coprime.symm h1).dvd_of_dvd_mul_left this
  have hdvd2 : d2 ∣ d1 := by
    have : d2 ∣ n2 * d1 := ⟨n1, h.symm.trans (Nat.mul_comm _ _)⟩
    exact (Nat.Coprime.symm h2).dvd_of_dvd_mul_left this
  have hd : d1 = d2 := Nat.dvd_antisymm hdvd1 hdvd2
  subst hd
  have hn : n1 = n2 := Nat.eq_of_mul_eq_mul_right (Nat.pos_of_ne_zero hd1) h
  exact ⟨hn, rfl⟩

theorem eqFrac_iff_normalize_eq (l r : Fraction) :
    eqFrac l r = true ↔ l.normalize = r.normalize := by
  cases hl : l.normalize with
  | mk a b =>
    cases hr : r.normalize with
    | mk c d =>
      simp [eqFrac, hl, hr, Fraction.mk.injEq]

theorem eqFrac_iff_cross (l r : Fraction)
    (hl : l.m_denom ≠ 0) (hr : r.m_denom ≠ 0) :
    eqFrac l r = true ↔ normCross l r = normCross r l := by
  rw [eqFrac_iff_normalize_eq]
  constructor
  · intro h
    simp [normCross, h, Nat.mul_comm]
  · intro h
    have hcl : Nat.Coprime l.normalize.m_num l.normalize.m_denom :=
      normalize_coprime l (fun hc => hl hc.2)
    have hcr : Nat.Coprime r.normalize.m_num r.normalize.m_denom :=
      normalize_coprime r (fun hc => hr hc.2)
    have hdl : l.normalize.m_denom ≠ 0 := normalize_denom_ne_zero l hl
    have hcc := coprime_cross_eq hcl hcr hdl h
    cases hn : l.normalize with
    | mk a b =>
      cases hm : r.normalize with
      | mk c d =>
        rw [hn, hm] at hcc
        simp only at hcc
        simp [hcc.1, hcc.2]

/-- Unsigned multiplication in the source agrees with exact multiplication
when the exact product is below 2 ^ 32. -/
theorem ltFrac_exact (l r : Fraction)
    (hX : normCross l r < uintSize) (hY : normCross r l < uintSize) :
    ltFrac l r = decide (normCross l r < normCross r l) := by
  simp only [ltFrac, normCross] at *
  rw [Nat.mod_eq_of_lt hX, Nat.mod_eq_of_lt hY]

theorem gtFrac_exact (l r : Fraction)
    (hX : normCross l r < uintSize) (hY : normCross r l < uintSize) :
    gtFrac l r = decide (normCross r l < normCross l r) := by
  simp only [gtFrac, normCross] at *
  rw [Nat.mod_eq_of_lt hX, Nat.mod_eq_of_lt hY]

/-- The raw cross product is the normalized cross product scaled by the
product of the two gcds. -/
theorem raw_cross_eq (l r : Fraction) :
    l.m_num * r.m_denom
      = Nat.gcd l.m_num l.m_denom * Nat.gcd r.m_num r.m_denom * normCross l r := by
  have h1 : Nat.gcd l.m_num l.m_denom * (l.m_num / Nat.gcd l.m_num l.m_denom) = l.m_num :=
    Nat.mul_div_cancel' (Nat.gcd_dvd_left _ _)
  have h2 : Nat.gcd r.m_num r.m_denom * (r.m_denom / Nat.gcd r.m_num r.m_denom) = r.m_denom :=
    Nat.mul_div_cancel' (Nat.gcd_dvd_right _ _)
  conv_lhs => rw [← h1, ← h2]
  simp only [normCross, normalize_m_num, normalize_m_denom]
  ring

/- ## Claim theorems -/

/-- C1 (counterexample): the two-argument constructor performs no reduction.
The fraction 2/6 has a nonzero denominator, yet its stored pair keeps the
common factor 2, so the post-construction half of the invariant fails. -/
theorem fraction_ctor_not_reduced :
    (Fraction.mk2 2 6).m_denom ≠ 0 ∧
    Nat.gcd (Fraction.mk2 2 6).m_num (Fraction.mk2 2 6).m_denom ≠ 1 := by
  decide

/-- C1 (amended): construction stores the pair as given, but every operation
that produces a new value through normalize yields a reduced pair, with the
zero value stored as 0/1, whenever the operand denominators are nonzero and
the wrapped denominator product of a fraction-fraction multiplication is
nonzero. -/
theorem fraction_ops_reduced (a b : Fraction) (k : Nat)
    (ha : a.m_denom ≠ 0) (hb : b.m_denom ≠ 0)
    (hd : a.m_denom * b.m_denom % uintSize ≠ 0) :
    reducedInv (a.mulScalar k) ∧ reducedInv (scalarMulFrac k a) ∧
    reducedInv (a.mulAssignScalar k) ∧ reducedInv (a.mulAssignFrac b) ∧
    reducedInv (mulFrac a b) := by
  have hinner : (Fraction.normalize ⟨a.m_num * k % uintSize, a.m_denom⟩).m_denom ≠ 0 :=
    normalize_denom_ne_zero ⟨a.m_num * k % uintSize, a.m_denom⟩ ha
  have houter : reducedInv ((Fraction.normalize ⟨a.m_num * k % uintSize, a.m_denom⟩).normalize) :=
    normalize_reducedInv _ (fun hc => hinner hc.2)
  refine ⟨houter, houter, ?_, ?_, ?_⟩
  · exact normalize_reducedInv ⟨a.m_num * k % uintSize, a.m_denom⟩ (fun hc => ha hc.2)
  · exact normalize_reducedInv ⟨a.m_num * b.m_num % uintSize, a.m_denom * b.m_denom % uintSize⟩
      (fun hc => hd hc.2)
  · exact normalize_reducedInv ⟨a.m_num * b.m_num % uintSize, a.m_denom * b.m_denom % uintSize⟩
      (fun hc => hd hc.2)

/-- C1 (witness): the amended invariant evaluated on concrete operands. -/
theorem fraction_ops_reduced_witness :
    reducedInv ((Fraction.mk2 1 3).mulScalar 2) ∧
    reducedInv (scalarMulFrac 2 (Fraction.mk2 1 3)) ∧
    reducedInv ((Fraction.mk2 1 3).mulAssignScalar 2) ∧
    reducedInv ((Fraction.mk2 1 3).mulAssignFrac (Fraction.mk2 2 6)) ∧
    reducedInv (mulFrac (Fraction.mk2 1 3) (Fraction.mk2 2 6)) :=
  fraction_ops_reduced (Fraction.mk2 1 3) (Fraction.mk2 2 6) 2
    (by decide) (by decide) (by decide)

/-- C2 (counterexample): the constructor has no zero-denominator check, so
the construction of 1/0 succeeds and stores the pair unchanged, while the
make of the spec fails with DomainError on the same input. -/
theorem zero_denom_no_error_counterexample :
    Fraction.mk2 1 0 = ⟨1, 0⟩ ∧ specMake 1 0 = Except.error "zero denominator" :=
  ⟨rfl, rfl⟩

/-- C2 (amended): constructing with denominator 0 does not fail and is not
defaulted: the pair (n, 0) is stored exactly as given, the resulting value
can be used by the public operators, and for nonzero n even the reduction
step runs without hitting its division-by-zero branch. -/
theorem zero_denom_ctor_unchecked (n : Nat) (hn : n ≠ 0) :
    Fraction.mk2 n 0 = ⟨n, 0⟩ ∧
    eqFrac (Fraction.mk2 n 0) (Fraction.mk2 n 0) = true ∧
    Fraction.normalizeChecked ⟨n, 0⟩ = some ⟨1, 0⟩ := by
  refine ⟨rfl, by simp [eqFrac], ?_⟩
  simp [Fraction.normalizeChecked, hn, Nat.div_self (Nat.pos_of_ne_zero hn)]

/-- C2 (witness): the amended statement at n = 1. -/
theorem zero_denom_ctor_unchecked_witness :
    Fraction.mk2 1 0 = ⟨1, 0⟩ ∧
    eqFrac (Fraction.mk2 1 0) (Fraction.mk2 1 0) = true ∧
    Fraction.normalizeChecked ⟨1, 0⟩ = some ⟨1, 0⟩ :=
  zero_denom_ctor_unchecked 1 (by decide)

/-- Auxiliary: equality of fractions is componentwise. -/
theorem fraction_eq_iff (x y : Fraction) :
    x = y ↔ x.m_num = y.m_num ∧ x.m_denom = y.m_denom := by
  cases x
  cases y
  simp

/-- C4 (confirmed): on values with nonzero denominators, operator ==
returns true exactly when the reduced pairs in the sense of the spec
coincide, and in particular 2/6 equals 1/3. -/
theorem eq_iff_reduced_pairs :
    (∀ a b : Fraction, a.m_denom ≠ 0 → b.m_denom ≠ 0 →
      (eqFrac a b = true ↔ specReducedPair a = specReducedPair b)) ∧
    eqFrac (Fraction.mk2 2 6) (Fraction.mk2 1 3) = true := by
  constructor
  · intro a b _ _
    rw [eqFrac_iff_normalize_eq, fraction_eq_iff]
    rw [show specReducedPair a = (a.normalize.m_num, a.normalize.m_denom) from rfl,
      show specReducedPair b = (b.normalize.m_num, b.normalize.m_denom) from rfl]
    simp [Prod.ext_iff]
  · decide

/-- C4 (witness): the equivalence applied to 4/6 and 2/3. -/
theorem eq_iff_reduced_pairs_witness :
    eqFrac (Fraction.mk2 4 6) (Fraction.mk2 2 3) = true ↔
      specReducedPair (Fraction.mk2 4 6) = specReducedPair (Fraction.mk2 2 3) :=
  eq_iff_reduced_pairs.1 (Fraction.mk2 4 6) (Fraction.mk2 2 3) (by decide) (by decide)

/-- C8 (confirmed): the member form a * k and the free-standing form k * a
are builtwise the same computation (copy the fields, apply *=, normalize),
so they produce identical results on every representable value. -/
theorem scalar_mul_symmetric (a : Fraction) (k : Nat) (ha : a.m_denom ≠ 0) :
    a.mulScalar k = scalarMulFrac k a := rfl

/-- C8 (witness): symmetry of scaling evaluated at 1/3 and 2. -/
theorem scalar_mul_symmetric_witness :
    (Fraction.mk2 1 3).mulScalar 2 = scalarMulFrac 2 (Fraction.mk2 1 3) :=
  scalar_mul_symmetric (Fraction.mk2 1 3) 2 (by decide)

/-- C10 (confirmed): the reduction divides both fields by the gcd of the
fields; that divisor is nonzero whenever the fields are not both zero, and
then the checked reduction succeeds. The pair 0/0 is constructible, and on
it the division-by-zero branch is reached from the public operators == and
* (scalar). -/
theorem gcd_zero_reachability :
    (∀ n d : Nat, ¬(n = 0 ∧ d = 0) → Nat.gcd n d ≠ 0 ∧
      Fraction.normalizeChecked ⟨n, d⟩ = some (Fraction.normalize ⟨n, d⟩)) ∧
    Fraction.normalizeChecked ⟨0, 0⟩ = none ∧
    eqFracChecked (Fraction.mk2 0 0) (Fraction.mk2 0 0) = none ∧
    mulScalarChecked (Fraction.mk2 0 0) 2 = none := by
  refine ⟨?_, rfl, rfl, by decide⟩
  intro n d h
  have hg : Nat.gcd n d ≠ 0 := by
    simpa [Nat.gcd_eq_zero_iff] using h
  exact ⟨hg, by simp [Fraction.normalizeChecked, Fraction.normalize, hg]⟩

/-- C10 (witness): the no-division-by-zero half evaluated at the pair 2/6. -/
theorem gcd_zero_reachability_witness :
    Nat.gcd 2 6 ≠ 0 ∧
    Fraction.normalizeChecked ⟨2, 6⟩ = some (Fraction.normalize ⟨2, 6⟩) :=
  gcd_zero_reachability.1 2 6 (by decide)

/-- C5 (counterexample): the cross products are computed in wrapping
unsigned arithmetic, so for 3 / 2^31 and 2^31 / 3 the exact comparison
holds (9 < 2^62) while operator < reports false (2^62 wraps to 0). -/
theorem lt_overflow_counterexample :
    ltFrac (Fraction.mk2 3 (2 ^ 31)) (Fraction.mk2 (2 ^ 31) 3) = false ∧
    (Fraction.mk2 3 (2 ^ 31)).m_num * (Fraction.mk2 (2 ^ 31) 3).m_denom
      < (Fraction.mk2 (2 ^ 31) 3).m_num * (Fraction.mk2 3 (2 ^ 31)).m_denom := by
  constructor
  · decide
  · decide

/-- C5 (amended): provided the cross products of the normalized forms fit
in 32 bits, operator < agrees with the exact cross-multiplication
comparison on the values as constructed. -/
theorem lt_cross_mul_no_overflow (a b : Fraction)
    (ha : a.m_denom ≠ 0) (hb : b.m_denom ≠ 0)
    (hX : normCross a b < uintSize) (hY : normCross b a < uintSize) :
    (ltFrac a b = true ↔ a.m_num * b.m_denom < b.m_num * a.m_denom) := by
  rw [ltFrac_exact a b hX hY]
  simp only [decide_eq_true_eq]
  rw [raw_cross_eq a b, raw_cross_eq b a]
  have hga : 0 < Nat.gcd a.m_num a.m_denom := Nat.pos_of_ne_zero (Nat.gcd_ne_zero_right ha)
  have hgb : 0 < Nat.gcd b.m_num b.m_denom := Nat.pos_of_ne_zero (Nat.gcd_ne_zero_right hb)
  rw [show Nat.gcd b.m_num b.m_denom * Nat.gcd a.m_num a.m_denom
      = Nat.gcd a.m_num a.m_denom * Nat.gcd b.m_num b.m_denom from Nat.mul_comm _ _]
  exact (Nat.mul_lt_mul_left (Nat.mul_pos hga hgb)).symm

/-- C5 (witness): the amended equivalence applied to 1/4 and 1/3. -/
theorem lt_cross_mul_no_overflow_witness :
    ltFrac (Fraction.mk2 1 4) (Fraction.mk2 1 3) = true ↔
      (Fraction.mk2 1 4).m_num * (Fraction.mk2 1 3).m_denom
        < (Fraction.mk2 1 3).m_num * (Fraction.mk2 1 4).m_denom :=
  lt_cross_mul_no_overflow (Fraction.mk2 1 4) (Fraction.mk2 1 3)
    (by decide) (by decide) (by decide) (by decide)

/-- C6 (counterexample): trichotomy fails under overflow. For 1/2 and
(2^31 + 1)/2 both wrapped cross products are 2, so neither < holds in
either direction, yet the two values are not equal. -/
theorem trichotomy_overflow_counterexample :
    ltFrac (Fraction.mk2 1 2) (Fraction.mk2 (2 ^ 31 + 1) 2) = false ∧
    eqFrac (Fraction.mk2 1 2) (Fraction.mk2 (2 ^ 31 + 1) 2) = false ∧
    ltFrac (Fraction.mk2 (2 ^ 31 + 1) 2) (Fraction.mk2 1 2) = false := by
  refine ⟨by decide, by decide, by decide⟩

/-- C6 (amended): provided the cross products of the normalized forms fit
in 32 bits and the denominators are nonzero, exactly one of a < b, a == b,
b < a holds. -/
theorem lt_trichotomy_exact (a b : Fraction)
    (ha : a.m_denom ≠ 0) (hb : b.m_denom ≠ 0)
    (hX : normCross a b < uintSize) (hY : normCross b a < uintSize) :
    (ltFrac a b).toNat + (eqFrac a b).toNat + (ltFrac b a).toNat = 1 := by
  have hlt : ltFrac a b = decide (normCross a b < normCross b a) := ltFrac_exact a b hX hY
  have hlt2 : ltFrac b a = decide (normCross b a < normCross a b) := ltFrac_exact b a hY hX
  have heq : eqFrac a b = true ↔ normCross a b = normCross b a := eqFrac_iff_cross a b ha hb
  rcases Nat.lt_trichotomy (normCross a b) (normCross b a) with h | h | h
  · have e1 : ltFrac a b = true := by rw [hlt]; simpa using h
    have e2 : eqFrac a b = false := by
      cases hE : eqFrac a b
      · rfl
      · exact absurd (heq.mp hE) (Nat.ne_of_lt h)
    have e3 : ltFrac b a = false := by rw [hlt2]; simp; omega
    simp [e1, e2, e3]
  · have e1 : ltFrac a b = false := by rw [hlt]; simp; omega
    have e2 : eqFrac a b = true := heq.mpr h
    have e3 : ltFrac b a = false := by rw [hlt2]; simp; omega
    simp [e1, e2, e3]
  · have e1 : ltFrac a b = false := by rw [hlt]; simp; omega
    have e2 : eqFrac a b = false := by
      cases hE : eqFrac a b
      · rfl
      · exact absurd (heq.mp hE) (Nat.ne_of_gt h)
    have e3 : ltFrac b a = true := by rw [hlt2]; simpa using h
    simp [e1, e2, e3]

/-- C6 (witness): trichotomy evaluated at 1/2 and 1/3. -/
theorem lt_trichotomy_exact_witness :
    (ltFrac (Fraction.mk2 1 2) (Fraction.mk2 1 3)).toNat
      + (eqFrac (Fraction.mk2 1 2) (Fraction.mk2 1 3)).toNat
      + (ltFrac (Fraction.mk2 1 3) (Fraction.mk2 1 2)).toNat = 1 :=
  lt_trichotomy_exact (Fraction.mk2 1 2) (Fraction.mk2 1 3)
    (by decide) (by decide) (by decide) (by decide)

/-- C7 (counterexample): under overflow, operator >= is not the negation
of operator <. For 1/2 and (2^31 + 1)/2 both wrapped cross products
coincide while the values differ, so >= returns false although < also
returns false. -/
theorem ge_overflow_counterexample :
    geFrac (Fraction.mk2 1 2) (Fraction.mk2 (2 ^ 31 + 1) 2) = false ∧
    (!(ltFrac (Fraction.mk2 1 2) (Fraction.mk2 (2 ^ 31 + 1) 2))) = true := by
  refine ⟨by decide, by decide⟩

/-- C7 (amended): provided the cross products of the normalized forms fit
in 32 bits and the denominators are nonzero, operator >= equals the
negation of operator <. -/
theorem ge_eq_not_lt_exact (a b : Fraction)
    (ha : a.m_denom ≠ 0) (hb : b.m_denom ≠ 0)
    (hX : normCross a b < uintSize) (hY : normCross b a < uintSize) :
    geFrac a b = !(ltFrac a b) := by
  have hgt : gtFrac a b = decide (normCross b a < normCross a b) := gtFrac_exact a b hX hY
  have hlt : ltFrac a b = decide (normCross a b < normCross b a) := ltFrac_exact a b hX hY
  have heq : eqFrac a b = true ↔ normCross a b = normCross b a := eqFrac_iff_cross a b ha hb
  unfold geFrac
  rcases Nat.lt_trichotomy (normCross a b) (normCross b a) with h | h | h
  · have e1 : ltFrac a b = true := by rw [hlt]; simpa using h
    have e2 : eqFrac a b = false := by
      cases hE : eqFrac a b
      · rfl
      · exact absurd (heq.mp hE) (Nat.ne_of_lt h)
    have e3 : gtFrac a b = false := by rw [hgt]; simp; omega
    simp [e1, e2, e3]
  · have e1 : ltFrac a b = false := by rw [hlt]; simp; omega
    have e2 : eqFrac a b = true := heq.mpr h
    simp [e1, e2]
  · have e1 : ltFrac a b = false := by rw [hlt]; simp; omega
    have e3 : gtFrac a b = true := by rw [hgt]; simpa using h
    simp [e1, e3]

/-- C7 (witness): the amended law evaluated at 1/3 and 1/4 (a case from
the test program where >= is true and < is false). -/
theorem ge_eq_not_lt_exact_witness :
    geFrac (Fraction.mk2 1 3) (Fraction.mk2 1 4)
      = !(ltFrac (Fraction.mk2 1 3) (Fraction.mk2 1 4)) :=
  ge_eq_not_lt_exact (Fraction.mk2 1 3) (Fraction.mk2 1 4)
    (by decide) (by decide) (by decide) (by decide)

/-- C9 (counterexample): the componentwise products wrap modulo 2^32, so
multiplying 65536/1 by 65536/1 stores the pair 0/1, not the reduced form
of the exact product 2^32 / 1. -/
theorem mul_overflow_counterexample :
    ((mulFrac (Fraction.mk2 (2 ^ 16) 1) (Fraction.mk2 (2 ^ 16) 1)).m_num,
      (mulFrac (Fraction.mk2 (2 ^ 16) 1) (Fraction.mk2 (2 ^ 16) 1)).m_denom)
      ≠ specReducedPair ⟨(Fraction.mk2 (2 ^ 16) 1).m_num * (Fraction.mk2 (2 ^ 16) 1).m_num,
          (Fraction.mk2 (2 ^ 16) 1).m_denom * (Fraction.mk2 (2 ^ 16) 1).m_denom⟩ := by
  decide

/-- C9 (amended): provided both componentwise products fit in 32 bits (and
the operand denominators are nonzero), operator * on two fractions returns
exactly the reduced form, in the sense of the spec, of the componentwise
product. -/
theorem mul_reduced_no_overflow (a b : Fraction)
    (ha : a.m_denom ≠ 0) (hb : b.m_denom ≠ 0)
    (hn : a.m_num * b.m_num < uintSize) (hd : a.m_denom * b.m_denom < uintSize) :
    ((mulFrac a b).m_num, (mulFrac a b).m_denom)
      = specReducedPair ⟨a.m_num * b.m_num, a.m_denom * b.m_denom⟩ := by
  unfold mulFrac
  rw [Nat.mod_eq_of_lt hn, Nat.mod_eq_of_lt hd]
  rfl

/-- C9 (witness): the scenario of the spec, 3 times 1/3: the product is
stored as the reduced pair of 3/3, namely 1/1. -/
theorem mul_reduced_no_overflow_witness :
    ((mulFrac (Fraction.mk1 3) (Fraction.mk2 1 3)).m_num,
      (mulFrac (Fraction.mk1 3) (Fraction.mk2 1 3)).m_denom)
      = specReducedPair ⟨(Fraction.mk1 3).m_num * (Fraction.mk2 1 3).m_num,
          (Fraction.mk1 3).m_denom * (Fraction.mk2 1 3).m_denom⟩ ∧
    mulFrac (Fraction.mk1 3) (Fraction.mk2 1 3) = Fraction.mk1 1 :=
  ⟨mul_reduced_no_overflow (Fraction.mk1 3) (Fraction.mk2 1 3)
    (by decide) (by decide) (by decide) (by decide), by decide⟩

/- ## Rendering lemmas -/

theorem digitChar_isDigit : ∀ m : Nat, m < 10 → (Nat.digitChar m).isDigit = true := by
  decide

theorem toDigitsCore_digits :
    ∀ (fuel n : Nat) (acc : List Char),
      (∀ c ∈ acc, c.isDigit = true) →
      ∀ c ∈ Nat.toDigitsCore 10 fuel n acc, c.isDigit = true := by
  intro fuel
  induction fuel with
  | zero =>
    intro n acc hacc c hc
    exact hacc c (by simpa [Nat.toDigitsCore] using hc)
  | succ fuel ih =>
    intro n acc hacc c hc
    simp only [Nat.toDigitsCore] at hc
    by_cases h : n / 10 = 0
    · rw [if_pos h] at hc
      rcases List.mem_cons.mp hc with h1 | h1
      · subst h1
        exact digitChar_isDigit _ (Nat.mod_lt _ (by decide))
      · exact hacc c h1
    · rw [if_neg h] at hc
      refine ih (n / 10) (Nat.digitChar (n % 10) :: acc) ?_ c hc
      intro d hd
      rcases List.mem_cons.mp hd with h1 | h1
      · subst h1
        exact digitChar_isDigit _ (Nat.mod_lt _ (by decide))
      · exact hacc d h1

theorem repr_chars_digits (n : Nat) :
    ∀ c ∈ (Nat.repr n).data, c.isDigit = true := by
  intro c hc
  exact toDigitsCore_digits (n + 1) n [] (by intro d hd; cases hd) c hc

/-- C3 (counterexample): rendering uses the stored fields, not the reduced
form: the value constructed as 2/6 renders as 2/6, not as 1/3, although its
stored pair is not reduced. -/
theorem render_not_reduced_counterexample :
    render (Fraction.mk2 2 6) = "2/6" ∧ "2/6" ≠ "1/3" ∧
    Nat.gcd (Fraction.mk2 2 6).m_num (Fraction.mk2 2 6).m_denom ≠ 1 := by
  refine ⟨by decide, by decide, by decide⟩

/-- C3 (amended): rendering produces numerator, slash, denominator of the
STORED pair, with no sign, no whitespace and no padding (every character is
a decimal digit or the slash); it shows the reduced form only when the
stored pair is already reduced, which construction does not guarantee. -/
theorem render_stored_pair (f : Fraction) :
    render f = Nat.repr f.m_num ++ "/" ++ Nat.repr f.m_denom ∧
    ∀ c ∈ (render f).data, c.isDigit = true ∨ c = '/' := by
  constructor
  · apply String.ext
    simp [render, ostreamShift, String.data_append]
  · intro c hc
    have hdata : (render f).data
        = (Nat.repr f.m_num).data ++ ('/' :: (Nat.repr f.m_denom).data) := by
      simp [render, ostreamShift, String.data_append]
    rw [hdata] at hc
    rcases List.mem_append.mp hc with h | h
    · exact Or.inl (repr_chars_digits f.m_num c h)
    · rcases List.mem_cons.mp h with h | h
      · exact Or.inr h
      · exact Or.inl (repr_chars_digits f.m_denom c h)

/-- C3 (witness): the rendering shape evaluated on the stored pair 2/6, and
the character property at the digit 2. -/
theorem render_stored_pair_witness :
    render (Fraction.mk2 2 6) = Nat.repr 2 ++ "/" ++ Nat.repr 6 ∧
    ('2'.isDigit = true ∨ '2' = '/') :=
  ⟨(render_stored_pair (Fraction.mk2 2 6)).1,
    (render_stored_pair (Fraction.mk2 2 6)).2 '2' (by decide)⟩
